import Mathlib

/-!
Verification of the spacemath 2D geometry kernel.

This file embeds the planar primitives (Point, Line, Segment, Ray, Circle,
Arc), the Intersect algebra, the Dist capability and the Boundary type of
the repository, translating the f64 arithmetic of the source into real
arithmetic.  Division by zero follows Lean's convention x / 0 = 0; at every
place where a branch outcome depends on it the surrounding development
checks that the observable result matches the source's IEEE behaviour.
-/

namespace Spacemath

open scoped Classical

/-- A 2D point or vector, `src/two/point.rs`. -/
structure Point where
  x : ℝ
  y : ℝ

instance : Inhabited Point := ⟨⟨0, 0⟩⟩

noncomputable instance : Add Point := ⟨fun p q => ⟨p.x + q.x, p.y + q.y⟩⟩

noncomputable instance : Sub Point := ⟨fun p q => ⟨p.x - q.x, p.y - q.y⟩⟩

noncomputable instance : HMul Point ℝ Point := ⟨fun p k => ⟨p.x * k, p.y * k⟩⟩

noncomputable instance : HDiv Point ℝ Point := ⟨fun p k => ⟨p.x / k, p.y / k⟩⟩

theorem Point.add_def (p q : Point) : p + q = ⟨p.x + q.x, p.y + q.y⟩ := rfl

theorem Point.sub_def (p q : Point) : p - q = ⟨p.x - q.x, p.y - q.y⟩ := rfl

theorem Point.mul_def (p : Point) (k : ℝ) : p * k = ⟨p.x * k, p.y * k⟩ := rfl

theorem Point.div_def (p : Point) (k : ℝ) : p / k = ⟨p.x / k, p.y / k⟩ := rfl

/-- `Point::unit`: unit vector at a given angle. -/
noncomputable def Point.unit (ang : ℝ) : Point :=
  ⟨Real.cos ang, Real.sin ang⟩

/-- `Point::mid`. -/
noncomputable def Point.mid (p other : Point) : Point :=
  ⟨(p.x + other.x) / 2, (p.y + other.y) / 2⟩

/-- `Point::norm`. -/
noncomputable def Point.norm (p : Point) : ℝ :=
  Real.sqrt (p.x ^ 2 + p.y ^ 2)

/-- `Point::dot`. -/
noncomputable def Point.dot (p other : Point) : ℝ :=
  p.x * other.x + p.y * other.y

/-- `Point::to_unit`. -/
noncomputable def Point.to_unit (p : Point) : Point :=
  p / p.norm

/-- `atan2` of the source's f64 type (standard library semantics, range
(-pi, pi]). -/
noncomputable def atan2 (y x : ℝ) : ℝ :=
  if 0 < x then Real.arctan (y / x)
  else if x < 0 ∧ 0 ≤ y then Real.arctan (y / x) + Real.pi
  else if x < 0 ∧ y < 0 then Real.arctan (y / x) - Real.pi
  else if x = 0 ∧ 0 < y then Real.pi / 2
  else if x = 0 ∧ y < 0 then -(Real.pi / 2)
  else 0

/-- `Point::ang`: atan2 normalised into [0, 2*pi). -/
noncomputable def Point.ang (p : Point) : ℝ :=
  let res := atan2 p.y p.x
  if res < 0 then res + 2 * Real.pi else res

/-- `Point::perp`: rotation by 90 degrees. -/
noncomputable def Point.perp (p : Point) : Point :=
  ⟨-1 * p.y, p.x⟩

/-- `Point::shoelace`. -/
noncomputable def Point.shoelace (p other : Point) : ℝ :=
  p.x * other.y - other.x * p.y

/-- `Dist for Point`: Euclidean distance. -/
noncomputable def Point.dist (p other : Point) : ℝ :=
  (p - other).norm

/-- A line in implicit form a*x + b*y = c, `src/two/line.rs`. -/
structure Line where
  a : ℝ
  b : ℝ
  c : ℝ

/-- `Line::perp_origin`: a perpendicular line through the origin. -/
noncomputable def Line.perp_origin (l : Line) : Line :=
  ⟨-1 * l.b, l.a, 0⟩

/-- `Shift for Line`: offset_x then offset_y. -/
noncomputable def Line.shift (l : Line) (r : Point) : Line :=
  ⟨l.a, l.b, l.c + l.a * r.x + l.b * r.y⟩

/-- `Shift::shift_subtract` (default method): shift by r * -1. -/
noncomputable def Line.shift_subtract (l : Line) (r : Point) : Line :=
  l.shift (r * (-1 : ℝ))

/-- A bounded segment, `src/two/line.rs`. -/
structure Segment where
  p : Point
  q : Point

/-- `Segment::to_line`. -/
noncomputable def Segment.to_line (s : Segment) : Line :=
  let a := s.q.y - s.p.y
  let b := s.p.x - s.q.x
  ⟨a, b, a * s.p.x + b * s.p.y⟩

/-- `Segment::bounds_contain`: bounding-box membership. -/
def Segment.bounds_contain (s : Segment) (r : Point) : Prop :=
  r.x ≤ max s.p.x s.q.x ∧ min s.p.x s.q.x ≤ r.x ∧
    r.y ≤ max s.p.y s.q.y ∧ min s.p.y s.q.y ≤ r.y

/-- `Segment::reverse`. -/
def Segment.reverse (s : Segment) : Segment :=
  ⟨s.q, s.p⟩

/-- A ray (half line), `src/two/line.rs`. -/
structure Ray where
  init : Point
  ang : ℝ

/-- `Ray::to_line`: the coincident line. -/
noncomputable def Ray.to_line (r : Ray) : Line :=
  let a := -1 * Real.sin r.ang
  let b := Real.cos r.ang
  ⟨a, b, a * r.init.x + b * r.init.y⟩

/-- `Ray::bounds_contain`: r lies strictly in front of the origin. -/
noncomputable def Ray.bounds_contain (ray : Ray) (r : Point) : Prop :=
  (r - ray.init).dot (Point.unit ray.ang) > 0

/-- A circle, `src/two/line.rs`. -/
structure Circle where
  center : Point
  radius : ℝ

/-- `Circle::at_ang`. -/
noncomputable def Circle.at_ang (c : Circle) (ang : ℝ) : Point :=
  Point.unit ang * c.radius + c.center

/-- An arc of a circle, `src/two/line.rs`. -/
structure Arc where
  center : Point
  radius : ℝ
  p_ang : ℝ
  q_ang : ℝ
  ccw : Bool

/-- `Arc::to_circle`. -/
def Arc.to_circle (a : Arc) : Circle :=
  ⟨a.center, a.radius⟩

/-- `Arc::p`: the endpoint at angle p_ang. -/
noncomputable def Arc.p (a : Arc) : Point :=
  Point.unit a.p_ang * a.radius + a.center

/-- `Arc::q`: as written in the source this is computed from `p_ang`,
exactly like `Arc::p`. -/
noncomputable def Arc.q (a : Arc) : Point :=
  Point.unit a.p_ang * a.radius + a.center

/-- `Arc::bounds_contain`: angular-wedge membership with wraparound,
inverted when `ccw` is false. -/
noncomputable def Arc.bounds_contain (a : Arc) (r : Point) : Prop :=
  let ang := (r - a.center).ang
  let is_in_ccw_arc :=
    if a.p_ang < a.q_ang then a.p_ang ≤ ang ∧ ang ≤ a.q_ang
    else a.p_ang ≤ ang ∨ ang ≤ a.q_ang
  if a.ccw then is_in_ccw_arc else ¬is_in_ccw_arc

/-- `Arc::reverse`: swap the angle bounds and flip `ccw`. -/
def Arc.reverse (a : Arc) : Arc :=
  ⟨a.center, a.radius, a.q_ang, a.p_ang, !a.ccw⟩

/-- `Count`, `src/two/intersect.rs`: cardinality of an intersection. -/
inductive Count where
  | zero : Count
  | one : Count
  | many : ℕ → Count
  | inf : Count
deriving DecidableEq

/-- `From<usize> for Count`; the `x as u8` cast of the source truncates
modulo 256. -/
def Count.ofNat (n : ℕ) : Count :=
  match n with
  | 0 => Count.zero
  | 1 => Count.one
  | x => Count.many (x % 256)

/-- `Count::is_odd`. -/
def Count.is_odd : Count → Bool
  | Count.zero => false
  | Count.one => true
  | Count.many x => x % 2 == 1
  | Count.inf => false

/-- `Count::is_zero`. -/
def Count.is_zero : Count → Bool
  | Count.zero => true
  | _ => false

/-- `Intersections`, `src/two/intersect.rs`: a result of 0, 1, 2 or many
points. -/
inductive Intersections where
  | Zero : Intersections
  | One : Point → Intersections
  | Two : Point → Point → Intersections
  | Many : List Point → Intersections

/-- `Intersections::count`. -/
def Intersections.count : Intersections → Count
  | Intersections.Zero => Count.ofNat 0
  | Intersections.One _ => Count.ofNat 1
  | Intersections.Two _ _ => Count.ofNat 2
  | Intersections.Many v => Count.ofNat v.length

/-- `Intersections::from_vec`. -/
def Intersections.from_vec (points : List Point) : Intersections :=
  match points with
  | [] => Intersections.Zero
  | [a] => Intersections.One a
  | [a, b] => Intersections.Two a b
  | v => Intersections.Many v

/-- `Intersections::into_vec`. -/
def Intersections.into_vec : Intersections → List Point
  | Intersections.Zero => []
  | Intersections.One a => [a]
  | Intersections.Two a b => [a, b]
  | Intersections.Many v => v

/-- `Intersections::get_one` (the `v[0]` access of the `Many` arm is total
in the source only for non-empty vectors; `headI` supplies the default). -/
def Intersections.get_one : Intersections → Option Point
  | Intersections.Zero => none
  | Intersections.One a => some a
  | Intersections.Two a _ => some a
  | Intersections.Many v => some v.headI

/-- `Intersections::filter`: keep the points satisfying a predicate. -/
noncomputable def Intersections.filter (f : Point → Prop) :
    Intersections → Intersections
  | Intersections.Zero => Intersections.Zero
  | Intersections.One a => if f a then Intersections.One a else Intersections.Zero
  | Intersections.Two a b =>
      if f a then
        if f b then Intersections.Two a b else Intersections.One a
      else
        if f b then Intersections.One b else Intersections.Zero
  | Intersections.Many v =>
      Intersections.from_vec (v.filter fun p => decide (f p))


/-- `Intersect<Line> for Line`, `intersects`: discriminant test, then the
ratio-based coincidence test. -/
noncomputable def Line.intersects (l1 l2 : Line) : Count :=
  let disc := l1.a * l2.b - l1.b * l2.a
  if disc = 0 then
    let scale := l1.a / l2.a
    if l1.b / l2.b = scale ∧ l1.c / l2.c = scale then Count.inf else Count.zero
  else Count.one

/-- `Intersect<Line> for Line`, `intersects_at`: one point via Cramer's
rule when the count is One, otherwise no points. -/
noncomputable def Line.intersects_at (l1 l2 : Line) : Intersections :=
  match Line.intersects l1 l2 with
  | Count.one =>
      let x := (l1.b * l2.c - l1.c * l2.b) / (l1.b * l2.a - l1.a * l2.b)
      let y := (l1.c * l2.a - l1.a * l2.c) / (l1.b * l2.a - l1.a * l2.b)
      Intersections.One ⟨x, y⟩
  | _ => Intersections.Zero

/-- `Intersect<Line> for Circle`: recenter, drop a perpendicular from the
origin, then split the chord. -/
noncomputable def Circle.intersects_at_line (c : Circle) (l : Line) : Intersections :=
  let r := c.radius
  let shifted_line := l.shift_subtract c.center
  let perp := shifted_line.perp_origin
  let inter := ((perp.intersects_at shifted_line).get_one).getD ⟨0, 0⟩
  let dist := inter.norm
  if dist = r then Intersections.One (inter + c.center)
  else if dist > r then Intersections.Zero
  else
    let half_chord := Real.sqrt (r ^ 2 - dist ^ 2)
    let unit_radial := inter.to_unit
    let unit_tangential := unit_radial.perp
    let p1 := unit_radial * dist + unit_tangential * half_chord
    let p2 := unit_radial * dist - unit_tangential * half_chord
    Intersections.Two (p1 + c.center) (p2 + c.center)

/-- `Intersect<Circle> for Circle`: radical-line construction. -/
noncomputable def Circle.intersects_at_circle (s o : Circle) : Intersections :=
  let c1 := s.center
  let r1 := s.radius
  let c2 := o.center
  let r2 := o.radius
  let dist := c1.dist c2
  if dist > r1 + r2 then Intersections.Zero
  else if dist = r1 + r2 then Intersections.One ((c1 * r2 + c2 * r1) / dist)
  else
    let mid := c1.mid c2
    let a := (r1 ^ 2 - r2 ^ 2) / (2 * dist ^ 2)
    let inner := 2 * (r1 ^ 2 + r2 ^ 2) / dist ^ 2 - (a * 2) ^ 2
    let b := Real.sqrt (inner - 1) / 2
    let b_dir : Point := ⟨c2.y - c1.y, c1.x - c2.x⟩
    let p1 := (mid + (c2 - c1) * a) + b_dir * b
    let p2 := (mid + (c2 - c1) * a) - b_dir * b
    Intersections.Two p1 p2

/-- `Intersect<T> for Segment` with T = Line (the blanket impl applied to a
Line argument). -/
noncomputable def Segment.intersects_at_line (s : Segment) (l : Line) : Intersections :=
  (l.intersects_at s.to_line).filter fun p => s.bounds_contain p

/-- `Intersect<T> for Ray` with T = Line. -/
noncomputable def Ray.intersects_at_line (r : Ray) (l : Line) : Intersections :=
  (l.intersects_at r.to_line).filter fun p => r.bounds_contain p

/-- `Intersect<T> for Arc` with T = Line (a Line intersects a Circle through
the reflexive impl). -/
noncomputable def Arc.intersects_at_line (a : Arc) (l : Line) : Intersections :=
  (Circle.intersects_at_line a.to_circle l).filter fun p => a.bounds_contain p

/-- `Intersect<T> for Segment` with T = Circle. -/
noncomputable def Segment.intersects_at_circle (s : Segment) (c : Circle) : Intersections :=
  (Circle.intersects_at_line c s.to_line).filter fun p => s.bounds_contain p

/-- `Intersect<T> for Ray` with T = Circle. -/
noncomputable def Ray.intersects_at_circle (r : Ray) (c : Circle) : Intersections :=
  (Circle.intersects_at_line c r.to_line).filter fun p => r.bounds_contain p

/-- `Intersect<T> for Arc` with T = Circle. -/
noncomputable def Arc.intersects_at_circle (a : Arc) (c : Circle) : Intersections :=
  (Circle.intersects_at_circle c a.to_circle).filter fun p => a.bounds_contain p

/-- The five primitive kinds of the Intersect algebra. -/
inductive Shape where
  | line : Line → Shape
  | seg : Segment → Shape
  | ray : Ray → Shape
  | circle : Circle → Shape
  | arc : Arc → Shape

/-- The kind tag of a shape. -/
inductive ShapeKind where
  | line : ShapeKind
  | seg : ShapeKind
  | ray : ShapeKind
  | circle : ShapeKind
  | arc : ShapeKind
deriving DecidableEq

/-- Kind of a shape. -/
def Shape.kind : Shape → ShapeKind
  | Shape.line _ => ShapeKind.line
  | Shape.seg _ => ShapeKind.seg
  | Shape.ray _ => ShapeKind.ray
  | Shape.circle _ => ShapeKind.circle
  | Shape.arc _ => ShapeKind.arc

/-- `intersects_at` for every ordered pair of primitive kinds, following
the trait resolution of `src/two/intersect.rs`: the custom Line-Line and
Circle-Line and Circle-Circle impls, the blanket impls for
Segment/Ray (restriction of Line) and Arc (restriction of Circle), and the
`reflexive_intersect` swap-and-delegate macros. -/
noncomputable def shapeIA : Shape → Shape → Intersections
  | Shape.line l1, Shape.line l2 => l1.intersects_at l2
  | Shape.line l, Shape.seg s => Segment.intersects_at_line s l
  | Shape.line l, Shape.ray r => Ray.intersects_at_line r l
  | Shape.line l, Shape.circle c => Circle.intersects_at_line c l
  | Shape.line l, Shape.arc a => Arc.intersects_at_line a l
  | Shape.seg s, Shape.line l => Segment.intersects_at_line s l
  | Shape.seg s1, Shape.seg s2 =>
      (Segment.intersects_at_line s2 s1.to_line).filter fun p => s1.bounds_contain p
  | Shape.seg s, Shape.ray r =>
      (Ray.intersects_at_line r s.to_line).filter fun p => s.bounds_contain p
  | Shape.seg s, Shape.circle c => Segment.intersects_at_circle s c
  | Shape.seg s, Shape.arc a =>
      (Arc.intersects_at_line a s.to_line).filter fun p => s.bounds_contain p
  | Shape.ray r, Shape.line l => Ray.intersects_at_line r l
  | Shape.ray r, Shape.seg s =>
      (Segment.intersects_at_line s r.to_line).filter fun p => r.bounds_contain p
  | Shape.ray r1, Shape.ray r2 =>
      (Ray.intersects_at_line r2 r1.to_line).filter fun p => r1.bounds_contain p
  | Shape.ray r, Shape.circle c => Ray.intersects_at_circle r c
  | Shape.ray r, Shape.arc a =>
      (Arc.intersects_at_line a r.to_line).filter fun p => r.bounds_contain p
  | Shape.circle c, Shape.line l => Circle.intersects_at_line c l
  | Shape.circle c, Shape.seg s => Segment.intersects_at_circle s c
  | Shape.circle c, Shape.ray r => Ray.intersects_at_circle r c
  | Shape.circle c1, Shape.circle c2 => Circle.intersects_at_circle c1 c2
  | Shape.circle c, Shape.arc a => Arc.intersects_at_circle a c
  | Shape.arc a, Shape.line l => Arc.intersects_at_line a l
  | Shape.arc a, Shape.seg s =>
      (Segment.intersects_at_circle s a.to_circle).filter fun p => a.bounds_contain p
  | Shape.arc a, Shape.ray r =>
      (Ray.intersects_at_circle r a.to_circle).filter fun p => a.bounds_contain p
  | Shape.arc a, Shape.circle c => Arc.intersects_at_circle a c
  | Shape.arc a1, Shape.arc a2 =>
      (Arc.intersects_at_circle a2 a1.to_circle).filter fun p => a1.bounds_contain p

/-- `intersects` for every ordered pair: the `Intersect` trait's default
method counts `intersects_at`, except for Line-Line, which overrides
`intersects` with the discriminant/coincidence test. -/
noncomputable def shapeIntersects (x y : Shape) : Count :=
  match x, y with
  | Shape.line l1, Shape.line l2 => l1.intersects l2
  | _, _ => (shapeIA x y).count

/-- `Edge`, `src/two/boundary.rs`: a tagged union of Arc and Segment. -/
inductive Edge where
  | arc : Arc → Edge
  | seg : Segment → Edge

instance : Inhabited Edge := ⟨Edge.seg ⟨⟨0, 0⟩, ⟨0, 0⟩⟩⟩

/-- `Edge::p`. -/
noncomputable def Edge.p : Edge → Point
  | Edge.arc a => a.p
  | Edge.seg s => s.p

/-- `Edge::q`. -/
noncomputable def Edge.q : Edge → Point
  | Edge.arc a => a.q
  | Edge.seg s => s.q

/-- `Edge::reverse`. -/
def Edge.reverse : Edge → Edge
  | Edge.arc a => Edge.arc a.reverse
  | Edge.seg s => Edge.seg s.reverse

/-- View an edge as a shape of the Intersect algebra. -/
def Edge.toShape : Edge → Shape
  | Edge.arc a => Shape.arc a
  | Edge.seg s => Shape.seg s

/-- `Intersect<Edge> for Edge`: dispatch on the two variants; each arm is
the corresponding primitive-pair `intersects_at`. -/
noncomputable def Edge.intersections_with (e1 e2 : Edge) : Intersections :=
  shapeIA e1.toShape e2.toShape

/-- `Intersect<Ray> for Edge`: dispatch on the variant. -/
noncomputable def Edge.ray_intersections (e : Edge) (r : Ray) : Intersections :=
  shapeIA e.toShape (Shape.ray r)

/-- `Boundary`, `src/two/boundary.rs`: an edge chain plus the cached list
of edge-start points. -/
structure Boundary where
  edges : List Edge
  points : List Point

/-- `Boundary::new` with the panics of its asserts modelled as `none`:
non-empty edge list, chained endpoints within 1e-6, closure within 1e-6. -/
noncomputable def Boundary.new (edges : List Edge) : Option Boundary :=
  if edges.isEmpty then none
  else if ¬ (∀ pr ∈ edges.zip edges.tail, Point.dist pr.1.q pr.2.p < 1e-6) then none
  else if ¬ (Point.dist edges.headI.p (edges.getLastI).q < 1e-6) then none
  else some ⟨edges, edges.map Edge.p⟩

/-- `Boundary::reverse`: reverse the edge order and each edge's direction;
the cached `points` field is not touched by the source. -/
def Boundary.reverse (b : Boundary) : Boundary :=
  ⟨(b.edges.reverse).map Edge.reverse, b.points⟩

/-- `Boundary::contains`: ray casting at the fixed angle 0.1337 with the
even-odd rule. -/
noncomputable def Boundary.contains (b : Boundary) (x : Point) : Bool :=
  let ray : Ray := ⟨x, 0.1337⟩
  !(b.edges.foldl
      (fun even_crossing e =>
        if (e.ray_intersections ray).count.is_odd then !even_crossing
        else even_crossing)
      true)

/-- `Intersect<Boundary> for Boundary`: every edge pairing, union of the
intersection points. -/
noncomputable def Boundary.intersections_with (b other : Boundary) : List Point :=
  b.edges.flatMap fun e1 =>
    other.edges.flatMap fun e2 => (e1.intersections_with e2).into_vec

/-- `Boundary::contains_boundary` with the panic of its assert modelled as
`none`: requires zero pairwise edge intersections, then tests one vertex. -/
noncomputable def Boundary.contains_boundary (b other : Boundary) : Option Bool :=
  if (Count.ofNat (b.intersections_with other).length).is_zero then
    some (b.contains other.points.headI)
  else none

/-- Modelled from the spec: `Line::perp_through` is called by `Dist for
Line` but absent from the sources; the spec describes projecting a point
onto a line "via intersecting the perpendicular through it", so this is
the perpendicular line through r, consistent with `Line::perp_origin`. -/
noncomputable def Line.perp_through (l : Line) (r : Point) : Line :=
  ⟨-1 * l.b, l.a, -1 * l.b * r.x + l.a * r.y⟩

/-- Modelled from the spec: `Line::projected` is called by `Dist for
Segment` but absent from the sources; the spec describes it as the
projection of the point onto the line, the intersection of the line with
the perpendicular through the point (the source's `unwrap` panic on a
degenerate line is modelled by the `getD` default). -/
noncomputable def Line.projected (l : Line) (r : Point) : Point :=
  (((l.perp_through r).intersects_at l).get_one).getD r

/-- `Dist for Segment`: projected distance when the projection is in
bounds, otherwise distance to the closest endpoint. -/
noncomputable def Segment.dist (s : Segment) (r : Point) : ℝ :=
  let projected := s.to_line.projected r
  if s.bounds_contain projected then projected.dist r
  else min (r.dist s.p) (r.dist s.q)

theorem Point.dist_self (p : Point) : p.dist p = 0 := by
  simp only [Point.dist, Point.norm, Point.sub_def, sub_self]
  rw [show (0:ℝ) ^ 2 + (0:ℝ) ^ 2 = 0 by norm_num, Real.sqrt_zero]

theorem Intersections.into_vec_from_vec (v : List Point) :
    (Intersections.from_vec v).into_vec = v := by
  match v with
  | [] => rfl
  | [_] => rfl
  | [_, _] => rfl
  | _ :: _ :: _ :: _ => rfl

theorem Intersections.mem_filter (f : Point → Prop) (I : Intersections) (p : Point) :
    p ∈ (I.filter f).into_vec ↔ p ∈ I.into_vec ∧ f p := by
  cases I with
  | Zero => simp [Intersections.filter, Intersections.into_vec]
  | One a =>
      simp only [Intersections.filter]
      by_cases h : f a
      · rw [if_pos h]
        simp only [Intersections.into_vec, List.mem_singleton]
        constructor
        · intro hm
          subst hm
          exact ⟨rfl, h⟩
        · exact fun hm => hm.1
      · rw [if_neg h]
        simp only [Intersections.into_vec, List.not_mem_nil, false_iff,
          List.mem_singleton]
        rintro ⟨rfl, hf⟩
        exact h hf
  | Two a b =>
      simp only [Intersections.filter]
      by_cases h : f a <;> by_cases h2 : f b
      · rw [if_pos h, if_pos h2]
        simp only [Intersections.into_vec, List.mem_cons, List.mem_singleton,
          List.not_mem_nil, or_false]
        constructor
        · intro hm
          refine ⟨hm, ?_⟩
          rcases hm with rfl | rfl
          · exact h
          · exact h2
        · exact fun hm => hm.1
      · rw [if_pos h, if_neg h2]
        simp only [Intersections.into_vec, List.mem_singleton, List.mem_cons,
          List.not_mem_nil, or_false]
        constructor
        · intro hm
          subst hm
          exact ⟨Or.inl rfl, h⟩
        · rintro ⟨rfl | rfl, hf⟩
          · rfl
          · exact absurd hf h2
      · rw [if_neg h, if_pos h2]
        simp only [Intersections.into_vec, List.mem_singleton, List.mem_cons,
          List.not_mem_nil, or_false]
        constructor
        · intro hm
          subst hm
          exact ⟨Or.inr rfl, h2⟩
        · rintro ⟨rfl | rfl, hf⟩
          · exact absurd hf h
          · rfl
      · rw [if_neg h, if_neg h2]
        simp only [Intersections.into_vec, List.not_mem_nil, List.mem_cons,
          List.mem_singleton, false_iff, or_false]
        rintro ⟨rfl | rfl, hf⟩
        · exact absurd hf h
        · exact absurd hf h2
  | Many v =>
      rw [show (Intersections.Many v).filter f =
        Intersections.from_vec (v.filter fun q => decide (f q)) from rfl]
      rw [Intersections.into_vec_from_vec]
      rw [show (Intersections.Many v).into_vec = v from rfl]
      simp only [List.mem_filter, decide_eq_true_iff]

theorem Intersections.filter_of_none (f : Point → Prop) (I : Intersections)
    (h : ∀ p, ¬ f p) : I.filter f = Intersections.Zero := by
  cases I with
  | Zero => rfl
  | One a => simp [Intersections.filter, h a]
  | Two a b => simp [Intersections.filter, h a, h b]
  | Many v =>
      have hv : v.filter (fun p => decide (f p)) = [] := by
        rw [List.filter_eq_nil_iff]
        intro a _
        simp [h a]
      simp [Intersections.filter, hv, Intersections.from_vec]

theorem Intersections.filter_congr (f g : Point → Prop) (I : Intersections)
    (h : ∀ p, f p ↔ g p) : I.filter f = I.filter g := by
  cases I with
  | Zero => rfl
  | One a => exact if_congr (h a) rfl rfl
  | Two a b =>
      simp only [Intersections.filter]
      exact if_congr (h a) (if_congr (h b) rfl rfl) (if_congr (h b) rfl rfl)
  | Many v =>
      simp only [Intersections.filter]
      congr 1
      refine List.filter_congr ?_
      intro a _
      exact decide_eq_decide.mpr (h a)

theorem Line.intersects_eq (l1 l2 : Line) :
    Line.intersects l1 l2 =
      if l1.a * l2.b - l1.b * l2.a = 0 then
        if l1.b / l2.b = l1.a / l2.a ∧ l1.c / l2.c = l1.a / l2.a then Count.inf
        else Count.zero
      else Count.one := rfl

theorem Line.intersects_at_eq (l1 l2 : Line) :
    Line.intersects_at l1 l2 =
      if l1.a * l2.b - l1.b * l2.a = 0 then Intersections.Zero
      else
        Intersections.One
          ⟨(l1.b * l2.c - l1.c * l2.b) / (l1.b * l2.a - l1.a * l2.b),
            (l1.c * l2.a - l1.a * l2.c) / (l1.b * l2.a - l1.a * l2.b)⟩ := by
  unfold Line.intersects_at
  rw [Line.intersects_eq]
  by_cases h : l1.a * l2.b - l1.b * l2.a = 0
  · rw [if_pos h, if_pos h]
    by_cases hp : l1.b / l2.b = l1.a / l2.a ∧ l1.c / l2.c = l1.a / l2.a
    · rw [if_pos hp]
    · rw [if_neg hp]
  · rw [if_neg h, if_neg h]

theorem Line.intersects_at_symm (l1 l2 : Line) :
    Line.intersects_at l1 l2 = Line.intersects_at l2 l1 := by
  rw [Line.intersects_at_eq, Line.intersects_at_eq]
  by_cases h : l1.a * l2.b - l1.b * l2.a = 0
  · have h2 : l2.a * l1.b - l2.b * l1.a = 0 := by linarith
    rw [if_pos h, if_pos h2]
  · have h2 : l2.a * l1.b - l2.b * l1.a ≠ 0 := fun hc => h (by linarith)
    rw [if_neg h, if_neg h2]
    have ex : l2.b * l1.c - l2.c * l1.b = -(l1.b * l2.c - l1.c * l2.b) := by ring
    have ey : l2.c * l1.a - l2.a * l1.c = -(l1.c * l2.a - l1.a * l2.c) := by ring
    have ed : l2.b * l1.a - l2.a * l1.b = -(l1.b * l2.a - l1.a * l2.b) := by ring
    rw [ex, ey, ed, neg_div_neg_eq, neg_div_neg_eq]

theorem Line.intersects_at_neg_left (l1 l2 : Line) :
    Line.intersects_at ⟨-l1.a, -l1.b, -l1.c⟩ l2 = Line.intersects_at l1 l2 := by
  rw [Line.intersects_at_eq, Line.intersects_at_eq]
  simp only
  by_cases h : l1.a * l2.b - l1.b * l2.a = 0
  · have h2 : -l1.a * l2.b - -l1.b * l2.a = 0 := by linarith
    rw [if_pos h, if_pos h2]
  · have h2 : -l1.a * l2.b - -l1.b * l2.a ≠ 0 := fun hc => h (by linarith)
    rw [if_neg h, if_neg h2]
    have ex : -l1.b * l2.c - -l1.c * l2.b = -(l1.b * l2.c - l1.c * l2.b) := by
      ring
    have ey : -l1.c * l2.a - -l1.a * l2.c = -(l1.c * l2.a - l1.a * l2.c) := by
      ring
    have ed : -l1.b * l2.a - -l1.a * l2.b = -(l1.b * l2.a - l1.a * l2.b) := by
      ring
    rw [ex, ey, ed, neg_div_neg_eq, neg_div_neg_eq]

theorem Segment.to_line_reverse (s : Segment) :
    s.reverse.to_line = ⟨-s.to_line.a, -s.to_line.b, -s.to_line.c⟩ := by
  simp only [Segment.to_line, Segment.reverse, Line.mk.injEq]
  refine ⟨by ring, by ring, by ring⟩

theorem Segment.bounds_contain_reverse (s : Segment) (r : Point) :
    s.reverse.bounds_contain r ↔ s.bounds_contain r := by
  simp only [Segment.bounds_contain, Segment.reverse]
  rw [max_comm, min_comm, max_comm s.q.y, min_comm s.q.y]

/-- C1 (amended): for every pair of primitive shapes and every
configuration in which `intersects` does not report the infinite
cardinality, `intersects(A,B)` equals the cardinality of
`intersects_at(A,B)`.  (For coincident Lines `intersects` returns `Inf`
while `intersects_at` carries zero points, so the two sides differ
there.) -/
theorem c1_consistency_except_inf (x y : Shape)
    (h : shapeIntersects x y ≠ Count.inf) :
    shapeIntersects x y = (shapeIA x y).count := by
  cases x <;> cases y <;> try rfl
  case line.line l1 l2 =>
    simp only [shapeIntersects] at h ⊢
    simp only [shapeIA]
    rw [Line.intersects_eq] at h ⊢
    rw [Line.intersects_at_eq]
    by_cases hd : l1.a * l2.b - l1.b * l2.a = 0
    · rw [if_pos hd] at h ⊢
      rw [if_pos hd]
      by_cases hp : l1.b / l2.b = l1.a / l2.a ∧ l1.c / l2.c = l1.a / l2.a
      · rw [if_pos hp] at h
        exact absurd rfl h
      · rw [if_neg hp]
        rfl
    · rw [if_neg hd, if_neg hd]
      rfl

/-- Witness for C1 at the transversal pair of lines 2x+3y=2 and x-y=6. -/
theorem c1_witness :
    shapeIntersects (Shape.line ⟨2, 3, 2⟩) (Shape.line ⟨1, -1, 6⟩) ≠ Count.inf ∧
    shapeIntersects (Shape.line ⟨2, 3, 2⟩) (Shape.line ⟨1, -1, 6⟩) =
      (shapeIA (Shape.line ⟨2, 3, 2⟩) (Shape.line ⟨1, -1, 6⟩)).count := by
  have hne : shapeIntersects (Shape.line ⟨2, 3, 2⟩) (Shape.line ⟨1, -1, 6⟩) ≠
      Count.inf := by
    simp only [shapeIntersects, Line.intersects_eq]
    norm_num
    exact fun hc => Count.noConfusion hc
  exact ⟨hne, c1_consistency_except_inf _ _ hne⟩

/-- Counterexample to C1 as stated: for the coincident lines x+y=1 and
2x+2y=2, `intersects` reports `Inf` while `intersects_at` carries zero
points, whose cardinality is `Zero`. -/
theorem c1_counterexample :
    shapeIntersects (Shape.line ⟨1, 1, 1⟩) (Shape.line ⟨2, 2, 2⟩) = Count.inf ∧
    (shapeIA (Shape.line ⟨1, 1, 1⟩) (Shape.line ⟨2, 2, 2⟩)).count = Count.zero ∧
    shapeIntersects (Shape.line ⟨1, 1, 1⟩) (Shape.line ⟨2, 2, 2⟩) ≠
      (shapeIA (Shape.line ⟨1, 1, 1⟩) (Shape.line ⟨2, 2, 2⟩)).count := by
  have h1 : shapeIntersects (Shape.line ⟨1, 1, 1⟩) (Shape.line ⟨2, 2, 2⟩) =
      Count.inf := by
    simp only [shapeIntersects, Line.intersects_eq]
    norm_num
  have h2 : (shapeIA (Shape.line ⟨1, 1, 1⟩) (Shape.line ⟨2, 2, 2⟩)).count =
      Count.zero := by
    simp only [shapeIA, Line.intersects_at_eq]
    norm_num [Intersections.count, Count.ofNat]
  refine ⟨h1, h2, ?_⟩
  rw [h1, h2]
  simp

/-- C2: at the coincident vertical lines x = 1 (coefficients (1,0,1)) and
2x = 2 (coefficients (2,0,2)), the triples are proportional with factor 2
and the discriminant vanishes, yet `Line::intersects` reports `Zero`
because the ratio test divides 0 by 0 (NaN in the source's f64
arithmetic, the junk value 0 here; the comparison fails either way). -/
theorem c2_coincident_vertical_eval :
    Line.intersects ⟨1, 0, 1⟩ ⟨2, 0, 2⟩ = Count.zero ∧
    (Line.mk 2 0 2).a = 2 * (Line.mk 1 0 1).a ∧
    (Line.mk 2 0 2).b = 2 * (Line.mk 1 0 1).b ∧
    (Line.mk 2 0 2).c = 2 * (Line.mk 1 0 1).c := by
  refine ⟨?_, by norm_num, by norm_num, by norm_num⟩
  rw [Line.intersects_eq]
  norm_num

theorem Point.eq_iff (p q : Point) : p = q ↔ p.x = q.x ∧ p.y = q.y := by
  cases p
  cases q
  simp

theorem zip_tail_forall_iff_chain {α : Type} (P : α → α → Prop) :
    ∀ l : List α, (∀ pr ∈ l.zip l.tail, P pr.1 pr.2) ↔ List.Chain' P l
  | [] => by simp
  | [a] => by simp
  | a :: b :: t => by
      rw [List.chain'_cons, ← zip_tail_forall_iff_chain P (b :: t)]
      constructor
      · intro h
        refine ⟨h (a, b) (by simp), ?_⟩
        intro pr hpr
        refine h pr ?_
        simp only [List.tail_cons] at hpr ⊢
        simp only [List.zip_cons_cons, List.mem_cons]
        right
        simpa using hpr
      · rintro ⟨hab, hch⟩ pr hpr
        simp only [List.tail_cons, List.zip_cons_cons, List.mem_cons] at hpr
        rcases hpr with rfl | hpr
        · exact hab
        · exact hch pr (by simpa using hpr)

/-- C3 (amended): `Arc::q` always returns the same point as `Arc::p`, so
the two reported endpoints of an arc coincide; the returned point lies at
angle q_ang exactly when the radius-scaled unit vectors of the two bound
angles agree (so also at p_ang = 0, q_ang = 2*pi, or radius 0, not only
when p_ang = q_ang). -/
theorem c3_arc_q_equals_p (a : Arc) :
    a.q = a.p ∧
    (a.q = a.to_circle.at_ang a.q_ang ↔
      Point.unit a.p_ang * a.radius = Point.unit a.q_ang * a.radius) := by
  refine ⟨rfl, ?_⟩
  unfold Arc.q Circle.at_ang Arc.to_circle
  simp only [Point.eq_iff, Point.add_def, Point.mul_def, Point.unit]
  constructor
  · rintro ⟨h1, h2⟩
    exact ⟨by linarith, by linarith⟩
  · rintro ⟨h1, h2⟩
    exact ⟨by linarith, by linarith⟩

/-- Counterexample to C3 as stated: the full arc with p_ang = 0 and
q_ang = 2*pi has distinct bound angles, yet its reported endpoint `q`
does lie at angle q_ang. -/
theorem c3_counterexample :
    (Arc.mk ⟨0, 0⟩ 1 0 (2 * Real.pi) true).p_ang ≠
      (Arc.mk ⟨0, 0⟩ 1 0 (2 * Real.pi) true).q_ang ∧
    (Arc.mk ⟨0, 0⟩ 1 0 (2 * Real.pi) true).q =
      (Arc.mk ⟨0, 0⟩ 1 0 (2 * Real.pi) true).to_circle.at_ang
        (Arc.mk ⟨0, 0⟩ 1 0 (2 * Real.pi) true).q_ang := by
  constructor
  · intro h
    have hpi := Real.pi_pos
    simp only at h
    linarith
  · unfold Arc.q Circle.at_ang Arc.to_circle
    simp [Point.eq_iff, Point.add_def, Point.mul_def, Point.unit,
      Real.cos_two_pi, Real.sin_two_pi]

/-- C4: `Boundary::new` succeeds exactly on a non-empty edge list whose
consecutive endpoints chain within 1e-6 and whose last endpoint closes
back to the first start point within 1e-6; any violation is a hard
failure. -/
theorem c4_boundary_new_iff (edges : List Edge) :
    (Boundary.new edges).isSome ↔
      edges ≠ [] ∧
      List.Chain' (fun e1 e2 => Point.dist e1.q e2.p < 1e-6) edges ∧
      Point.dist edges.headI.p edges.getLastI.q < 1e-6 := by
  unfold Boundary.new
  simp only [zip_tail_forall_iff_chain (fun e1 e2 => Point.dist e1.q e2.p < 1e-6)
    edges]
  by_cases h1 : edges.isEmpty
  · rw [if_pos h1]
    simp [List.isEmpty_iff.mp h1]
  · rw [if_neg h1]
    by_cases h2 : List.Chain' (fun e1 e2 => Point.dist e1.q e2.p < 1e-6) edges
    · rw [if_neg (not_not_intro h2)]
      by_cases h3 : Point.dist edges.headI.p edges.getLastI.q < 1e-6
      · rw [if_neg (not_not_intro h3)]
        simp only [Option.isSome_some, true_iff]
        exact ⟨fun hnil => h1 (by simp [hnil]), h2, h3⟩
      · rw [if_pos h3]
        constructor
        · intro hco
          exact absurd hco (by simp)
        · rintro ⟨-, -, hcl⟩
          exact absurd hcl h3
    · rw [if_pos h2]
      constructor
      · intro hco
        exact absurd hco (by simp)
      · rintro ⟨-, hch, -⟩
        exact absurd hch h2

/-- C5: for circles centered (0,0) radius 5 and (1,0) radius 1 the center
distance 1 is smaller than the radius difference 4 (one circle wholly
inside the other), yet `Circle::intersects_at` reports two intersection
points (with NaN coordinates in the source's f64 arithmetic) rather than
zero. -/
theorem c5_containment_eval :
    (Circle.intersects_at_circle ⟨⟨0, 0⟩, 5⟩ ⟨⟨1, 0⟩, 1⟩).count =
      Count.many 2 ∧
    Point.dist ⟨0, 0⟩ ⟨1, 0⟩ < |(5:ℝ) - 1| := by
  have hdist : Point.dist (⟨0, 0⟩ : Point) ⟨1, 0⟩ = 1 := by
    simp only [Point.dist, Point.norm, Point.sub_def]
    rw [show ((0:ℝ) - 1) ^ 2 + ((0:ℝ) - 0) ^ 2 = 1 by norm_num, Real.sqrt_one]
  constructor
  · simp only [Circle.intersects_at_circle]
    rw [hdist]
    rw [if_neg (by norm_num : ¬((1:ℝ) > 5 + 1))]
    rw [if_neg (by norm_num : ¬((1:ℝ) = 5 + 1))]
    rfl
  · rw [hdist]
    norm_num

/-- C6: for every mixed pair of distinct primitive kinds,
`intersects_at(A,B)` and `intersects_at(B,A)` hold the same set of
points. -/
theorem c6_symmetry (x y : Shape) (h : x.kind ≠ y.kind) (p : Point) :
    p ∈ (shapeIA x y).into_vec ↔ p ∈ (shapeIA y x).into_vec := by
  cases x <;> cases y <;>
    first
      | exact absurd rfl h
      | exact Iff.rfl
      | skip
  case seg.ray s r =>
    simp only [shapeIA, Segment.intersects_at_line, Ray.intersects_at_line]
    simp only [Intersections.mem_filter]
    rw [Line.intersects_at_symm s.to_line r.to_line]
    tauto
  case ray.seg r s =>
    simp only [shapeIA, Segment.intersects_at_line, Ray.intersects_at_line]
    simp only [Intersections.mem_filter]
    rw [Line.intersects_at_symm r.to_line s.to_line]
    tauto
  case seg.arc s a =>
    simp only [shapeIA, Arc.intersects_at_line, Segment.intersects_at_circle]
    simp only [Intersections.mem_filter]
    tauto
  case arc.seg a s =>
    simp only [shapeIA, Arc.intersects_at_line, Segment.intersects_at_circle]
    simp only [Intersections.mem_filter]
    tauto
  case ray.arc r a =>
    simp only [shapeIA, Arc.intersects_at_line, Ray.intersects_at_circle]
    simp only [Intersections.mem_filter]
    tauto
  case arc.ray a r =>
    simp only [shapeIA, Arc.intersects_at_line, Ray.intersects_at_circle]
    simp only [Intersections.mem_filter]
    tauto

/-- Witness for C6 at a concrete line and segment. -/
theorem c6_witness :
    (⟨4, -2⟩ : Point) ∈
        (shapeIA (Shape.line ⟨2, 3, 2⟩)
          (Shape.seg ⟨⟨3, -3⟩, ⟨5, -1⟩⟩)).into_vec ↔
      (⟨4, -2⟩ : Point) ∈
        (shapeIA (Shape.seg ⟨⟨3, -3⟩, ⟨5, -1⟩⟩)
          (Shape.line ⟨2, 3, 2⟩)).into_vec :=
  c6_symmetry (Shape.line ⟨2, 3, 2⟩) (Shape.seg ⟨⟨3, -3⟩, ⟨5, -1⟩⟩)
    (fun hk => ShapeKind.noConfusion hk) ⟨4, -2⟩

theorem Count.ofNat_is_zero_iff (n : ℕ) : (Count.ofNat n).is_zero = true ↔ n = 0 := by
  match n with
  | 0 => simp [Count.ofNat, Count.is_zero]
  | 1 => simp [Count.ofNat, Count.is_zero]
  | (m + 2) => simp [Count.ofNat, Count.is_zero]

/-- C7: `contains_boundary` fails its precondition (panics) exactly when
the two boundaries have at least one pairwise edge intersection; on
disjoint boundaries it returns the containment test of the first
edge-start vertex of the candidate boundary. -/
theorem c7_contains_boundary (b1 b2 : Boundary) :
    (b1.intersections_with b2 ≠ [] → b1.contains_boundary b2 = none) ∧
    (b1.intersections_with b2 = [] →
      b1.contains_boundary b2 = some (b1.contains b2.points.headI)) := by
  unfold Boundary.contains_boundary
  constructor
  · intro hne
    rw [if_neg]
    intro hc
    exact hne (List.length_eq_zero.mp ((Count.ofNat_is_zero_iff _).mp hc))
  · intro he
    rw [if_pos ((Count.ofNat_is_zero_iff _).mpr (by simp [he]))]

theorem seg_seg_mem (s1 s2 : Segment) (p : Point) :
    p ∈ (Edge.intersections_with (Edge.seg s1) (Edge.seg s2)).into_vec ↔
      (p ∈ (s1.to_line.intersects_at s2.to_line).into_vec ∧
        s2.bounds_contain p) ∧ s1.bounds_contain p := by
  simp only [Edge.intersections_with, Edge.toShape, shapeIA,
    Segment.intersects_at_line, Intersections.mem_filter]

theorem seg_seg_parallel_zero (s1 s2 : Segment)
    (h : s1.to_line.a * s2.to_line.b - s1.to_line.b * s2.to_line.a = 0) :
    Edge.intersections_with (Edge.seg s1) (Edge.seg s2) = Intersections.Zero := by
  simp only [Edge.intersections_with, Edge.toShape, shapeIA,
    Segment.intersects_at_line]
  rw [Line.intersects_at_eq, if_pos h]
  rfl

/-- A flat two-segment boundary along the segment (0,0)-(1,0). -/
noncomputable def flatB0 : Boundary :=
  ⟨[Edge.seg ⟨⟨0, 0⟩, ⟨1, 0⟩⟩, Edge.seg ⟨⟨1, 0⟩, ⟨0, 0⟩⟩],
    [⟨0, 0⟩, ⟨1, 0⟩]⟩

/-- A flat two-segment boundary crossing `flatB0` vertically at x = 1/2. -/
noncomputable def flatBV : Boundary :=
  ⟨[Edge.seg ⟨⟨1 / 2, -1⟩, ⟨1 / 2, 1⟩⟩, Edge.seg ⟨⟨1 / 2, 1⟩, ⟨1 / 2, -1⟩⟩],
    [⟨1 / 2, -1⟩, ⟨1 / 2, 1⟩]⟩

/-- A flat two-segment boundary far from `flatB0`, at height y = 10. -/
noncomputable def flatBF : Boundary :=
  ⟨[Edge.seg ⟨⟨0, 10⟩, ⟨1, 10⟩⟩, Edge.seg ⟨⟨1, 10⟩, ⟨0, 10⟩⟩],
    [⟨0, 10⟩, ⟨1, 10⟩]⟩

/-- Witness for C7: an intersecting pair panics, a disjoint pair reduces
to the single-vertex containment test. -/
theorem c7_witness :
    Boundary.contains_boundary flatB0 flatBV = none ∧
    Boundary.contains_boundary flatB0 flatBF =
      some (flatB0.contains flatBF.points.headI) := by
  constructor
  · refine (c7_contains_boundary flatB0 flatBV).1 ?_
    intro hemp
    have hmem : (⟨1 / 2, 0⟩ : Point) ∈ flatB0.intersections_with flatBV := by
      simp only [Boundary.intersections_with, flatB0, flatBV, List.mem_flatMap]
      refine ⟨Edge.seg ⟨⟨0, 0⟩, ⟨1, 0⟩⟩, by simp, ?_⟩
      refine ⟨Edge.seg ⟨⟨1 / 2, -1⟩, ⟨1 / 2, 1⟩⟩, by simp, ?_⟩
      rw [seg_seg_mem]
      refine ⟨⟨?_, ?_⟩, ?_⟩
      · rw [Line.intersects_at_eq, if_neg (by norm_num [Segment.to_line])]
        simp only [Intersections.into_vec, List.mem_singleton, Point.eq_iff]
        norm_num [Segment.to_line]
      · norm_num [Segment.bounds_contain]
      · norm_num [Segment.bounds_contain]
    rw [hemp] at hmem
    exact absurd hmem (List.not_mem_nil _)
  · refine (c7_contains_boundary flatB0 flatBF).2 ?_
    have hz : ∀ s1 s2 : Segment, s1.to_line.a = 0 → s2.to_line.a = 0 →
        Edge.intersections_with (Edge.seg s1) (Edge.seg s2) =
          Intersections.Zero := by
      intro s1 s2 ha1 ha2
      exact seg_seg_parallel_zero s1 s2 (by rw [ha1, ha2]; ring)
    simp only [Boundary.intersections_with, flatB0, flatBF, List.flatMap_cons,
      List.flatMap_nil, List.append_nil]
    rw [hz _ _ (by norm_num [Segment.to_line]) (by norm_num [Segment.to_line]),
      hz _ _ (by norm_num [Segment.to_line]) (by norm_num [Segment.to_line]),
      hz _ _ (by norm_num [Segment.to_line]) (by norm_num [Segment.to_line]),
      hz _ _ (by norm_num [Segment.to_line]) (by norm_num [Segment.to_line])]
    rfl

/-- The unit-square boundary, as `Boundary::new` constructs it: four
segments, cached `points` given by the edge-start points. -/
noncomputable def sqB : Boundary :=
  ⟨[Edge.seg ⟨⟨0, 0⟩, ⟨1, 0⟩⟩, Edge.seg ⟨⟨1, 0⟩, ⟨1, 1⟩⟩,
      Edge.seg ⟨⟨1, 1⟩, ⟨0, 1⟩⟩, Edge.seg ⟨⟨0, 1⟩, ⟨0, 0⟩⟩],
    [⟨0, 0⟩, ⟨1, 0⟩, ⟨1, 1⟩, ⟨0, 1⟩]⟩

/-- C9: `Boundary::reverse` replaces the edges with the reversed,
direction-flipped edges but leaves the cached `points` vector untouched,
so after a reverse the points are still the pre-reversal edge starts and
(on the unit square) differ from the start points of the current edges. -/
theorem c9_reverse_points_stale :
    (∀ b : Boundary, (Boundary.reverse b).points = b.points ∧
      (Boundary.reverse b).edges = b.edges.reverse.map Edge.reverse) ∧
    (Boundary.reverse sqB).points = sqB.edges.map Edge.p ∧
    (Boundary.reverse sqB).points ≠ (Boundary.reverse sqB).edges.map Edge.p := by
  refine ⟨fun b => ⟨rfl, rfl⟩, ?_, ?_⟩
  · simp [sqB, Boundary.reverse, Edge.p]
  · intro h
    simp only [sqB, Boundary.reverse, Edge.reverse, Segment.reverse,
      List.reverse_cons, List.reverse_nil, List.nil_append, List.cons_append,
      List.map_cons, List.map_nil, Edge.p, List.cons.injEq, Point.eq_iff] at h
    norm_num at h

/-- Whether an edge is a Segment edge. -/
def Edge.isSeg : Edge → Prop
  | Edge.arc _ => False
  | Edge.seg _ => True

theorem foldl_flip_eq (g : Edge → Bool) (l : List Edge) (init : Bool) :
    List.foldl (fun ev e => if g e then !ev else ev) init l =
      xor init (l.countP g % 2 == 1) := by
  induction l generalizing init with
  | nil => simp
  | cons a t ih =>
      simp only [List.foldl_cons, List.countP_cons]
      rw [ih]
      by_cases hg : g a = true
      · rw [if_pos hg, hg]
        rcases Nat.mod_two_eq_zero_or_one (t.countP g) with h2 | h2 <;>
          · rw [Nat.add_mod, h2]
            cases init <;> simp
      · rw [if_neg hg]
        have hgf : g a = false := by simpa using hg
        rw [hgf]
        simp

theorem contains_eq_parity (b : Boundary) (x : Point) :
    b.contains x =
      !(xor true
        ((b.edges.countP
            fun e => (e.ray_intersections ⟨x, 0.1337⟩).count.is_odd) % 2 ==
          1)) := by
  simp only [Boundary.contains]
  rw [foldl_flip_eq]

theorem countP_reverse_eq (l : List Edge) (p : Edge → Bool) :
    l.reverse.countP p = l.countP p := by
  rw [List.countP_eq_length_filter, List.countP_eq_length_filter,
    List.filter_reverse, List.length_reverse]

theorem ray_intersections_reverse_seg (s : Segment) (r : Ray) :
    Edge.ray_intersections (Edge.reverse (Edge.seg s)) r =
      Edge.ray_intersections (Edge.seg s) r := by
  simp only [Edge.reverse, Edge.ray_intersections, Edge.toShape, shapeIA]
  unfold Ray.intersects_at_line
  rw [Segment.to_line_reverse, Line.intersects_at_neg_left s.to_line r.to_line]
  exact Intersections.filter_congr _ _ _ fun p => Segment.bounds_contain_reverse s p

/-- C8 (amended): for a boundary all of whose edges are Segments, point
containment is unchanged by `reverse`; Arc edges can change the answer
because reversing an arc complements its angular wedge. -/
theorem c8_segment_orientation_independent (b : Boundary) (x : Point)
    (h : ∀ e ∈ b.edges, e.isSeg) :
    (Boundary.reverse b).contains x = b.contains x := by
  rw [contains_eq_parity, contains_eq_parity]
  have hc : ((Boundary.reverse b).edges.countP
        fun e => (e.ray_intersections ⟨x, 0.1337⟩).count.is_odd) =
      b.edges.countP fun e => (e.ray_intersections ⟨x, 0.1337⟩).count.is_odd := by
    simp only [Boundary.reverse]
    rw [List.countP_map, countP_reverse_eq]
    refine List.countP_congr ?_
    intro e he
    cases e with
    | arc a => exact (h _ he).elim
    | seg s =>
        simp only [Function.comp_apply]
        rw [ray_intersections_reverse_seg]
  rw [hc]

/-- Witness for C8 on the unit square at its center. -/
theorem c8_witness :
    (Boundary.reverse sqB).contains ⟨1 / 2, 1 / 2⟩ =
      sqB.contains ⟨1 / 2, 1 / 2⟩ := by
  refine c8_segment_orientation_independent sqB ⟨1 / 2, 1 / 2⟩ ?_
  intro e he
  simp only [sqB, List.mem_cons, List.not_mem_nil, or_false] at he
  rcases he with rfl | rfl | rfl | rfl <;> exact trivial

theorem proj_dist_le (l : Line) (r t : Point)
    (hD : l.a ^ 2 + l.b ^ 2 ≠ 0)
    (ht : l.a * t.x + l.b * t.y = l.c) :
    (l.projected r).dist r ≤ r.dist t := by
  have hDpos : 0 < l.a ^ 2 + l.b ^ 2 :=
    lt_of_le_of_ne (by positivity) (Ne.symm hD)
  unfold Line.projected Line.perp_through
  rw [Line.intersects_at_eq]
  rw [if_neg (show ¬(-1 * l.b * l.b - l.a * l.a = 0) by
    intro h0
    apply hD
    nlinarith)]
  simp only [Intersections.get_one, Option.getD_some]
  unfold Point.dist Point.norm
  simp only [Point.sub_def]
  apply Real.sqrt_le_sqrt
  have hden : l.a * l.a - -1 * l.b * l.b = l.a ^ 2 + l.b ^ 2 := by ring
  rw [hden]
  have hX : (l.a * l.c - (-1 * l.b * r.x + l.a * r.y) * l.b) /
        (l.a ^ 2 + l.b ^ 2) - r.x =
      -(l.a * (l.a * r.x + l.b * r.y - l.c)) / (l.a ^ 2 + l.b ^ 2) := by
    field_simp
    ring
  have hY : ((-1 * l.b * r.x + l.a * r.y) * l.a - -1 * l.b * l.c) /
        (l.a ^ 2 + l.b ^ 2) - r.y =
      -(l.b * (l.a * r.x + l.b * r.y - l.c)) / (l.a ^ 2 + l.b ^ 2) := by
    field_simp
    ring
  rw [hX, hY]
  rw [div_pow, div_pow, div_add_div_same, div_le_iff₀ (by positivity)]
  have key : (-(l.a * (l.a * r.x + l.b * r.y - l.c))) ^ 2 +
      (-(l.b * (l.a * r.x + l.b * r.y - l.c))) ^ 2 =
      (l.a * (r.x - t.x) + l.b * (r.y - t.y)) ^ 2 * (l.a ^ 2 + l.b ^ 2) := by
    have hc : l.c = l.a * t.x + l.b * t.y := ht.symm
    rw [hc]
    ring
  rw [key]
  have hcs : (l.a * (r.x - t.x) + l.b * (r.y - t.y)) ^ 2 ≤
      ((r.x - t.x) ^ 2 + (r.y - t.y) ^ 2) * (l.a ^ 2 + l.b ^ 2) := by
    nlinarith [sq_nonneg (l.a * (r.y - t.y) - l.b * (r.x - t.x))]
  calc (l.a * (r.x - t.x) + l.b * (r.y - t.y)) ^ 2 * (l.a ^ 2 + l.b ^ 2)
      ≤ (((r.x - t.x) ^ 2 + (r.y - t.y) ^ 2) * (l.a ^ 2 + l.b ^ 2)) *
        (l.a ^ 2 + l.b ^ 2) :=
        mul_le_mul_of_nonneg_right hcs (le_of_lt hDpos)
    _ = ((r.x - t.x) ^ 2 + (r.y - t.y) ^ 2) * (l.a ^ 2 + l.b ^ 2) ^ 2 := by
        ring

/-- C10 (amended): for a nondegenerate Segment, dist(s, r) is at most the
distance from r to the nearer endpoint, with equality whenever the
projection of r onto the underlying line falls outside the segment bound
(equality can also occur with the projection inside the bound, e.g. for r
on the segment, so it is not restricted to the outside case). -/
theorem c10_dist_bound (s : Segment) (r : Point) (hpq : s.p ≠ s.q) :
    Segment.dist s r ≤ min (r.dist s.p) (r.dist s.q) ∧
    (¬ s.bounds_contain (s.to_line.projected r) →
      Segment.dist s r = min (r.dist s.p) (r.dist s.q)) := by
  have hD : s.to_line.a ^ 2 + s.to_line.b ^ 2 ≠ 0 := by
    intro h0
    apply hpq
    have ha : s.to_line.a = 0 := by
      nlinarith [sq_nonneg s.to_line.a, sq_nonneg s.to_line.b]
    have hb : s.to_line.b = 0 := by
      nlinarith [sq_nonneg s.to_line.a, sq_nonneg s.to_line.b]
    simp only [Segment.to_line] at ha hb
    rw [Point.eq_iff]
    constructor <;> linarith
  have hp : s.to_line.a * s.p.x + s.to_line.b * s.p.y = s.to_line.c := by
    simp only [Segment.to_line]
  have hq : s.to_line.a * s.q.x + s.to_line.b * s.q.y = s.to_line.c := by
    simp only [Segment.to_line]
    ring
  unfold Segment.dist
  by_cases hb : s.bounds_contain (s.to_line.projected r)
  · rw [if_pos hb]
    refine ⟨?_, fun hc => absurd hb hc⟩
    exact le_min (proj_dist_le s.to_line r s.p hD hp)
      (proj_dist_le s.to_line r s.q hD hq)
  · rw [if_neg hb]
    exact ⟨le_refl _, fun _ => rfl⟩

/-- Counterexample to C10 as stated: for the segment (0,0)-(1,0) and the
query point (0,0), dist equals the endpoint minimum while the projection
lies inside the segment bound, so equality is not restricted to the
projection-outside case. -/
theorem c10_counterexample :
    Segment.dist ⟨⟨0, 0⟩, ⟨1, 0⟩⟩ ⟨0, 0⟩ =
      min (Point.dist ⟨0, 0⟩ ⟨0, 0⟩) (Point.dist ⟨0, 0⟩ ⟨1, 0⟩) ∧
    Segment.bounds_contain ⟨⟨0, 0⟩, ⟨1, 0⟩⟩
      ((Segment.to_line ⟨⟨0, 0⟩, ⟨1, 0⟩⟩).projected ⟨0, 0⟩) := by
  have hproj : (Segment.to_line ⟨⟨0, 0⟩, ⟨1, 0⟩⟩).projected ⟨0, 0⟩ =
      (⟨0, 0⟩ : Point) := by
    unfold Line.projected Line.perp_through
    rw [Line.intersects_at_eq]
    rw [if_neg (by norm_num [Segment.to_line])]
    simp only [Intersections.get_one, Option.getD_some, Point.eq_iff]
    norm_num [Segment.to_line]
  have hbnd : Segment.bounds_contain ⟨⟨0, 0⟩, ⟨1, 0⟩⟩
      ((Segment.to_line ⟨⟨0, 0⟩, ⟨1, 0⟩⟩).projected ⟨0, 0⟩) := by
    rw [hproj]
    norm_num [Segment.bounds_contain]
  refine ⟨?_, hbnd⟩
  unfold Segment.dist
  rw [if_pos hbnd, hproj]
  have h00 : Point.dist (⟨0, 0⟩ : Point) ⟨0, 0⟩ = 0 := Point.dist_self _
  have h01 : Point.dist (⟨0, 0⟩ : Point) ⟨1, 0⟩ = 1 := by
    simp only [Point.dist, Point.norm, Point.sub_def]
    rw [show ((0:ℝ) - 1) ^ 2 + ((0:ℝ) - 0) ^ 2 = 1 by norm_num, Real.sqrt_one]
  rw [h00, h01]
  norm_num

/-- Witness for C10 at the segment (0,0)-(1,0) and the point (2,1), whose
projection (2,0) falls outside the bound. -/
theorem c10_witness :
    Segment.dist ⟨⟨0, 0⟩, ⟨1, 0⟩⟩ ⟨2, 1⟩ ≤
      min (Point.dist ⟨2, 1⟩ ⟨0, 0⟩) (Point.dist ⟨2, 1⟩ ⟨1, 0⟩) ∧
    Segment.dist ⟨⟨0, 0⟩, ⟨1, 0⟩⟩ ⟨2, 1⟩ =
      min (Point.dist ⟨2, 1⟩ ⟨0, 0⟩) (Point.dist ⟨2, 1⟩ ⟨1, 0⟩) := by
  have hpq : (⟨0, 0⟩ : Point) ≠ ⟨1, 0⟩ := by
    rw [Ne, Point.eq_iff]
    norm_num
  have hproj : (Segment.to_line ⟨⟨0, 0⟩, ⟨1, 0⟩⟩).projected ⟨2, 1⟩ =
      (⟨2, 0⟩ : Point) := by
    unfold Line.projected Line.perp_through
    rw [Line.intersects_at_eq]
    rw [if_neg (by norm_num [Segment.to_line])]
    simp only [Intersections.get_one, Option.getD_some, Point.eq_iff]
    norm_num [Segment.to_line]
  have hout : ¬ Segment.bounds_contain ⟨⟨0, 0⟩, ⟨1, 0⟩⟩
      ((Segment.to_line ⟨⟨0, 0⟩, ⟨1, 0⟩⟩).projected ⟨2, 1⟩) := by
    rw [hproj]
    norm_num [Segment.bounds_contain]
  exact ⟨(c10_dist_bound ⟨⟨0, 0⟩, ⟨1, 0⟩⟩ ⟨2, 1⟩ hpq).1,
    (c10_dist_bound ⟨⟨0, 0⟩, ⟨1, 0⟩⟩ ⟨2, 1⟩ hpq).2 hout⟩

theorem atan2_gt_neg_two_pi (y x : ℝ) : -(2 * Real.pi) < atan2 y x := by
  have hpi := Real.pi_pos
  have harc1 := Real.neg_pi_div_two_lt_arctan (y / x)
  have harc2 := Real.arctan_lt_pi_div_two (y / x)
  unfold atan2
  split_ifs <;> linarith

theorem Point.ang_nonneg (p : Point) : 0 ≤ p.ang := by
  have h := atan2_gt_neg_two_pi p.y p.x
  unfold Point.ang
  show 0 ≤
    if atan2 p.y p.x < 0 then atan2 p.y p.x + 2 * Real.pi else atan2 p.y p.x
  split_ifs with hlt
  · linarith
  · linarith [not_lt.mp hlt]

theorem arc_full_all (a : Arc) (hp : a.p_ang = 0) (hq : a.q_ang = 0)
    (hc : a.ccw = true) (r : Point) : a.bounds_contain r := by
  have hang := Point.ang_nonneg (r - a.center)
  unfold Arc.bounds_contain
  rw [hp, hq, hc]
  show if true = true then
      (if (0:ℝ) < 0 then 0 ≤ (r - a.center).ang ∧ (r - a.center).ang ≤ 0
        else 0 ≤ (r - a.center).ang ∨ (r - a.center).ang ≤ 0)
    else ¬(if (0:ℝ) < 0 then 0 ≤ (r - a.center).ang ∧ (r - a.center).ang ≤ 0
        else 0 ≤ (r - a.center).ang ∨ (r - a.center).ang ≤ 0)
  rw [if_pos rfl, if_neg (lt_irrefl (0:ℝ))]
  exact Or.inl hang

theorem arc_complement_empty (a : Arc) (hp : a.p_ang = 0) (hq : a.q_ang = 0)
    (hc : a.ccw = false) (r : Point) : ¬ a.bounds_contain r := by
  have hang := Point.ang_nonneg (r - a.center)
  unfold Arc.bounds_contain
  rw [hp, hq, hc]
  show ¬if false = true then
      (if (0:ℝ) < 0 then 0 ≤ (r - a.center).ang ∧ (r - a.center).ang ≤ 0
        else 0 ≤ (r - a.center).ang ∨ (r - a.center).ang ≤ 0)
    else ¬(if (0:ℝ) < 0 then 0 ≤ (r - a.center).ang ∧ (r - a.center).ang ≤ 0
        else 0 ≤ (r - a.center).ang ∨ (r - a.center).ang ≤ 0)
  rw [if_neg (show ¬(false = true) by simp), if_neg (lt_irrefl (0:ℝ))]
  intro hno
  exact hno (Or.inl hang)

theorem Line.shift_subtract_zero (l : Line) :
    l.shift_subtract ⟨0, 0⟩ = l := by
  unfold Line.shift_subtract Line.shift
  simp only [Point.mul_def]
  cases l with
  | mk a b c => simp

theorem ray_circle_aux (c s : ℝ) (hpy : c ^ 2 + s ^ 2 = 1) (hs0 : 0 < s)
    (hsc : s < c) (hc1 : c ≤ 1) :
    ∃ p1 p2 : Point,
      Circle.intersects_at_line ⟨⟨0, 0⟩, 2⟩
          ⟨-1 * s, c, -1 * s * (1 / 10) + c * (2 / 5)⟩ =
        Intersections.Two p1 p2 ∧
      ¬((p1 - ⟨1 / 10, 2 / 5⟩).dot ⟨c, s⟩ > 0) ∧
      ((p2 - ⟨1 / 10, 2 / 5⟩).dot ⟨c, s⟩ > 0) := by
  have hc0 : 0 < c := lt_trans hs0 hsc
  have hs1 : s ≤ 1 := le_trans hsc.le hc1
  obtain ⟨k, hk⟩ : ∃ k : ℝ, k = -1 * s * (1 / 10) + c * (2 / 5) := ⟨_, rfl⟩
  rw [← hk]
  have hk0 : 0 < k := by rw [hk]; nlinarith
  have hklt : k < 2 / 5 := by rw [hk]; nlinarith
  have hH0 : 0 ≤ Real.sqrt (2 ^ 2 - k ^ 2) := Real.sqrt_nonneg _
  have hHm : 1 / 10 * c + 2 / 5 * s < Real.sqrt (2 ^ 2 - k ^ 2) := by
    have hm0 : (0:ℝ) ≤ 1 / 10 * c + 2 / 5 * s := by nlinarith
    rw [show ((2:ℝ) ^ 2 - k ^ 2) = 4 - k ^ 2 by norm_num]
    rw [Real.lt_sqrt hm0]
    nlinarith
  refine ⟨(⟨-s, c⟩ : Point) * k +
      ((⟨-s, c⟩ : Point)).perp * Real.sqrt (2 ^ 2 - k ^ 2) + ⟨0, 0⟩,
    (⟨-s, c⟩ : Point) * k -
      ((⟨-s, c⟩ : Point)).perp * Real.sqrt (2 ^ 2 - k ^ 2) + ⟨0, 0⟩,
    ?_, ?_, ?_⟩
  · simp only [Circle.intersects_at_line]
    rw [Line.shift_subtract_zero]
    rw [show (Line.mk (-1 * s) c k).perp_origin = ⟨-1 * c, -1 * s, 0⟩ from rfl]
    have hinter :
        ((Line.intersects_at ⟨-1 * c, -1 * s, 0⟩ ⟨-1 * s, c, k⟩).get_one).getD
            ⟨0, 0⟩ = ⟨-s * k, c * k⟩ := by
      rw [Line.intersects_at_eq]
      rw [if_neg (show ¬((⟨-1 * c, -1 * s, 0⟩ : Line).a * (⟨-1 * s, c, k⟩ : Line).b -
          (⟨-1 * c, -1 * s, 0⟩ : Line).b * (⟨-1 * s, c, k⟩ : Line).a = 0) by
        simp only
        intro h0
        nlinarith)]
      simp only [Intersections.get_one, Option.getD_some]
      rw [Point.eq_iff]
      simp only
      rw [show -1 * s * (-1 * s) - -1 * c * c = 1 by nlinarith]
      constructor
      · rw [div_one]
        ring
      · rw [div_one]
        ring
    rw [hinter]
    have hnorm : (⟨-s * k, c * k⟩ : Point).norm = k := by
      simp only [Point.norm]
      rw [show (-s * k) ^ 2 + (c * k) ^ 2 = k ^ 2 by nlinarith]
      exact Real.sqrt_sq hk0.le
    rw [hnorm]
    rw [if_neg (show ¬(k = 2) by intro h0; rw [h0] at hklt; norm_num at hklt)]
    rw [if_neg (show ¬(k > 2) by push_neg; linarith)]
    have hunit : (⟨-s * k, c * k⟩ : Point).to_unit = ⟨-s, c⟩ := by
      simp only [Point.to_unit]
      rw [hnorm, Point.div_def, Point.eq_iff]
      constructor
      · field_simp
      · field_simp
    rw [hunit]
  · simp only [Point.perp, Point.mul_def, Point.add_def, Point.sub_def,
      Point.dot]
    intro hpos
    nlinarith [mul_nonneg hH0 (sq_nonneg c), mul_nonneg hH0 (sq_nonneg s)]
  · simp only [Point.perp, Point.mul_def, Point.add_def, Point.sub_def,
      Point.dot]
    have hsum : Real.sqrt (2 ^ 2 - k ^ 2) * (c ^ 2 + s ^ 2) =
        Real.sqrt (2 ^ 2 - k ^ 2) := by rw [hpy, mul_one]
    nlinarith [hHm, hsum]

/-- The full-circle arc of radius 2 at the origin (p_ang = q_ang = 0,
ccw), as used by the repository's own `circle_bound` test. -/
noncomputable def fullArc : Arc := ⟨⟨0, 0⟩, 2, 0, 0, true⟩

/-- The boundary consisting of the single full arc, as `Boundary::new`
builds it. -/
noncomputable def fullArcB : Boundary := ⟨[Edge.arc fullArc], [fullArc.p]⟩

/-- Counterexample to C8 as stated: the valid full-arc boundary contains
(1/10, 2/5) before `reverse`, but after `reverse` the complemented wedge
of the reversed arc is empty, so containment flips to false. -/
theorem c8_counterexample :
    Boundary.new [Edge.arc fullArc] = some fullArcB ∧
    fullArcB.contains ⟨1 / 10, 2 / 5⟩ = true ∧
    (Boundary.reverse fullArcB).contains ⟨1 / 10, 2 / 5⟩ = false := by
  refine ⟨?_, ?_, ?_⟩
  · unfold Boundary.new
    rw [if_neg (show ¬([Edge.arc fullArc].isEmpty = true) by simp)]
    have hch : ∀ pr ∈ ([Edge.arc fullArc].zip [Edge.arc fullArc].tail),
        Point.dist pr.1.q pr.2.p < 1e-6 := by simp
    have hcl : Point.dist ([Edge.arc fullArc].headI.p)
        (([Edge.arc fullArc].getLastI).q) < 1e-6 := by
      show Point.dist fullArc.p fullArc.p < 1e-6
      rw [Point.dist_self]
      norm_num
    rw [if_neg (not_not_intro hch), if_neg (not_not_intro hcl)]
    rfl
  · rw [contains_eq_parity]
    have hpy : Real.cos (0.1337:ℝ) ^ 2 + Real.sin (0.1337:ℝ) ^ 2 = 1 :=
      Real.cos_sq_add_sin_sq _
    have hpi := Real.pi_gt_three
    have hs0 : 0 < Real.sin (0.1337:ℝ) :=
      Real.sin_pos_of_pos_of_lt_pi (by norm_num) (by linarith)
    have hsc : Real.sin (0.1337:ℝ) < Real.cos (0.1337:ℝ) := by
      have h1 : Real.sin (0.1337:ℝ) < Real.sin (Real.pi / 2 - 0.1337) := by
        apply Real.strictMonoOn_sin (Set.mem_Icc.mpr ⟨by linarith, by linarith⟩)
          (Set.mem_Icc.mpr ⟨by linarith, by linarith⟩)
        linarith
      rwa [Real.sin_pi_div_two_sub] at h1
    have hc1 : Real.cos (0.1337:ℝ) ≤ 1 := Real.cos_le_one _
    have hg : (Edge.ray_intersections (Edge.arc fullArc)
        ⟨⟨1 / 10, 2 / 5⟩, (0.1337:ℝ)⟩).count = Count.one := by
      simp only [Edge.ray_intersections, Edge.toShape, shapeIA]
      unfold Ray.intersects_at_circle
      rw [show fullArc.to_circle = (⟨⟨0, 0⟩, (2:ℝ)⟩ : Circle) from rfl]
      rw [show Ray.to_line ⟨⟨1 / 10, 2 / 5⟩, (0.1337:ℝ)⟩ =
        ⟨-1 * Real.sin 0.1337, Real.cos 0.1337,
          -1 * Real.sin 0.1337 * (1 / 10) + Real.cos 0.1337 * (2 / 5)⟩ from rfl]
      obtain ⟨p1, p2, heq, hn1, hy2⟩ :=
        ray_circle_aux (Real.cos (0.1337:ℝ)) (Real.sin (0.1337:ℝ)) hpy hs0 hsc
          hc1
      rw [heq]
      have hn1f : ¬ (⟨⟨1 / 10, 2 / 5⟩, (0.1337:ℝ)⟩ : Ray).bounds_contain p1 :=
        hn1
      have hy2f : (⟨⟨1 / 10, 2 / 5⟩, (0.1337:ℝ)⟩ : Ray).bounds_contain p2 :=
        hy2
      have h1 : (Intersections.Two p1 p2).filter
          (fun p => Ray.bounds_contain ⟨⟨1 / 10, 2 / 5⟩, (0.1337:ℝ)⟩ p) =
          Intersections.One p2 := by
        simp only [Intersections.filter]
        rw [if_neg hn1f, if_pos hy2f]
      rw [h1]
      have h2 : (Intersections.One p2).filter
          (fun p => fullArc.bounds_contain p) = Intersections.One p2 := by
        simp only [Intersections.filter]
        rw [if_pos (arc_full_all fullArc rfl rfl rfl p2)]
      rw [h2]
      rfl
    rw [show fullArcB.edges = [Edge.arc fullArc] from rfl]
    simp only [List.countP_cons, List.countP_nil]
    rw [hg]
    rfl
  · rw [contains_eq_parity]
    have hg0 : (Edge.ray_intersections (Edge.arc fullArc.reverse)
        ⟨⟨1 / 10, 2 / 5⟩, (0.1337:ℝ)⟩).count = Count.zero := by
      simp only [Edge.ray_intersections, Edge.toShape, shapeIA]
      rw [Intersections.filter_of_none _ _
        (arc_complement_empty fullArc.reverse rfl rfl rfl)]
      rfl
    rw [show (Boundary.reverse fullArcB).edges =
      [Edge.arc fullArc.reverse] from rfl]
    simp only [List.countP_cons, List.countP_nil]
    rw [hg0]
    rfl

end Spacemath
